import Mathlib

/-!
Verification of the core of `lume/three-meshline`: the ribbon tessellation in
`MeshLineGeometry.setPoints` / `#process`, the incremental `advance` update
(src/MeshLineGeometry.ts), and the `MeshLineRaycast` picking scan
(src/THREE.MeshLine.ts).  Machine floats are modelled by exact rationals; the
JS arrays backing the attributes are modelled by `List ℚ`, and the `Uint16Array`
index store keeps each value reduced modulo 2^16, as the typed-array conversion
does.  External three.js math used by the raycaster (sphere intersection,
`Ray.distanceSqToSegment`, matrix transforms) is abstracted into oracle fields
of `RaycastEnv`; everything else is translated directly from the source.
-/

namespace MeshLineSpec

/-- A 3D point with exact coordinates, modelling a three.js `Vector3`. -/
structure V3 where
  x : ℚ
  y : ℚ
  z : ℚ
deriving DecidableEq, Repr

instance : Inhabited V3 := ⟨⟨0, 0, 0⟩⟩

/-- The errors thrown by the source (`point missing`, `Call setPoints first.`,
`Not enough space to copy from src to dst.`, `missing src value`). -/
inductive MLError where
  | pointMissing
  | notInitialized
  | notEnoughSpace
  | missingSrcValue
deriving DecidableEq, Repr

/-- Read `positions[k]` where `k` may be negative: a JS out-of-range or negative
array read yields `undefined`, modelled as `none`. -/
def readAt (positions : List ℚ) (k : ℤ) : Option ℚ :=
  if k < 0 then none else positions[k.toNat]?

/-- `#clonePoint` (MeshLineGeometry.ts lines 122-130): read the three coordinates
of the point at `pointIndex` out of the doubled positions array (`itemSize = 6`);
the `@prod-prune` guard throws `point missing` when a coordinate is absent. -/
def clonePoint (positions : List ℚ) (pointIndex : ℤ) : Except MLError V3 :=
  let actualIndex := pointIndex * 6
  match readAt positions (actualIndex + 0), readAt positions (actualIndex + 1),
      readAt positions (actualIndex + 2) with
  | some x, some y, some z => .ok ⟨x, y, z⟩
  | _, _, _ => .error .pointMissing

/-- `#pointsAreEqual` (lines 112-120): exact coordinate equality (`===`) of the
stored scalars; JS `undefined === undefined` is true, which comparing the
`Option` values reproduces. -/
def pointsAreEqual (positions : List ℚ) (a b : ℕ) : Bool :=
  decide (positions[a * 6 + 0]? = positions[b * 6 + 0]?) &&
  decide (positions[a * 6 + 1]? = positions[b * 6 + 1]?) &&
  decide (positions[a * 6 + 2]? = positions[b * 6 + 2]?)

/-- Width of point `j` as computed in the `#process` loop (lines 160-161):
`widthCallback(j / (pointCount - 1))` when a callback is set, else `1`. -/
def widthOf (wcb : Option (ℚ → ℚ)) (pointCount : ℕ) (j : ℕ) : ℚ :=
  match wcb with
  | some f => f ((j : ℚ) / ((pointCount : ℚ) - 1))
  | none => 1

/-- The uv u-coordinate of point `j` (lines 166-167): `j / (pointCount - 1)`. -/
def uOf (pointCount : ℕ) (j : ℕ) : ℚ :=
  (j : ℚ) / ((pointCount : ℚ) - 1)

/-- The six per-vertex outputs of tessellation (before attribute upload). -/
structure Tess where
  previous : List ℚ
  next : List ℚ
  side : List ℚ
  width : List ℚ
  uvs : List ℚ
  indices : List ℕ
deriving DecidableEq, Repr

/-- One pass of the `#process` loop (lines 154-186) starting at index `j`:
returns the fragments contributed by indices `j, j+1, …, pointCount-1`.
Each iteration pushes the two side flags, the doubled width, the two uv pairs,
then (for `j < pointCount-1`) the doubled previous point and the six triangle
indices of segment `j`, and (for `j > 0`) the doubled next point. -/
def processLoop (positions : List ℚ) (pointCount : ℕ) (wcb : Option (ℚ → ℚ))
    (j : ℕ) : Except MLError Tess :=
  if h : j < pointCount then do
    let width := widthOf wcb pointCount j
    let u := uOf pointCount j
    let (prevPart, idxPart) ←
      if j < pointCount - 1 then do
        let p ← clonePoint positions (j : ℤ)
        let n := j * 2
        pure ([p.x, p.y, p.z, p.x, p.y, p.z],
              [n, n + 1, n + 2, n + 2, n + 1, n + 3])
      else pure (([] : List ℚ), ([] : List ℕ))
    let nextPart ←
      if 0 < j then do
        let p ← clonePoint positions (j : ℤ)
        pure [p.x, p.y, p.z, p.x, p.y, p.z]
      else pure ([] : List ℚ)
    let rest ← processLoop positions pointCount wcb (j + 1)
    pure
      { previous := prevPart ++ rest.previous
        next := nextPart ++ rest.next
        side := 1 :: -1 :: rest.side
        width := width :: width :: rest.width
        uvs := u :: 0 :: u :: 1 :: rest.uvs
        indices := idxPart ++ rest.indices }
  else
    pure { previous := [], next := [], side := [], width := [], uvs := [], indices := [] }
termination_by pointCount - j
decreasing_by omega

/-- The tessellation core of `#process` (lines 132-196): the loop-independent
boundary `previous` entry (closed-loop aware), the main loop, and the boundary
`next` entry. -/
def process (positions : List ℚ) (wcb : Option (ℚ → ℚ)) : Except MLError Tess := do
  let pointCount := positions.length / 6
  let pPrev ←
    if pointsAreEqual positions 0 (pointCount - 1) then
      clonePoint positions ((pointCount : ℤ) - 2)
    else
      clonePoint positions 0
  let t ← processLoop positions pointCount wcb 0
  let pNext ←
    if pointsAreEqual positions (pointCount - 1) 0 then
      clonePoint positions 1
    else
      clonePoint positions ((pointCount : ℤ) - 1)
  pure { t with
    previous := [pPrev.x, pPrev.y, pPrev.z, pPrev.x, pPrev.y, pPrev.z] ++ t.previous
    next := t.next ++ [pNext.x, pNext.y, pNext.z, pNext.x, pNext.y, pNext.z] }

/-- The `Vector3[]` input branch of `setPoints` (lines 84-93): push every point
twice into positions and its counter `j / points.length` twice into counters.
`n` is the (fixed) length of the whole input array. -/
def buildVec3 (n : ℕ) : List V3 → ℕ → List ℚ × List ℚ
  | [], _ => ([], [])
  | p :: rest, j =>
    let pc := buildVec3 n rest (j + 1)
    (p.x :: p.y :: p.z :: p.x :: p.y :: p.z :: pc.1,
     ((j : ℚ) / (n : ℚ)) :: ((j : ℚ) / (n : ℚ)) :: pc.2)

/-- The flat-number-array input branch of `setPoints` (lines 95-106): step `j`
by 3, reading coordinates `j, j+1, j+2` and pushing the counter
`j / points.length` twice; a missing coordinate throws `point missing`. -/
def buildFlat (arr : List ℚ) (j : ℕ) : Except MLError (List ℚ × List ℚ) :=
  if h : j < arr.length then
    match arr[j]?, arr[j + 1]?, arr[j + 2]? with
    | some x, some y, some z => do
      let c : ℚ := (j : ℚ) / (arr.length : ℚ)
      let pc ← buildFlat arr (j + 3)
      pure (x :: y :: z :: x :: y :: z :: pc.1, c :: c :: pc.2)
    | _, _, _ => .error .pointMissing
  else
    pure ([], [])
termination_by arr.length - j
decreasing_by omega

/-- Input accepted by `setPoints`: an array of `Vector3` or a flat scalar array
(the `isVector3Array` dispatch, lines 281-283). -/
inductive PointsInput where
  | vec3 (pts : List V3)
  | flat (arr : List ℚ)
deriving DecidableEq, Repr

/-- Length of the raw input array (`points.length`). -/
def inputLength : PointsInput → ℕ
  | .vec3 pts => pts.length
  | .flat arr => arr.length

/-- Build positions and counters from the input, dispatching on its shape. -/
def buildPositions : PointsInput → Except MLError (List ℚ × List ℚ)
  | .vec3 pts => .ok (buildVec3 pts.length pts 0)
  | .flat arr => buildFlat arr 0

/-- The attribute-object set built by `#process` (lines 199-225).  `gen` is an
allocation token: the fresh-allocation branch stamps a new `gen`, the reuse
branch keeps the existing one, so `gen` tracks object identity.  `index` holds
the values as stored in the `Uint16Array` (reduced modulo 2^16 by the typed
array).  The `Dirty` booleans are the `needsUpdate` flags. -/
structure Attrs where
  gen : ℕ
  position : List ℚ
  previous : List ℚ
  next : List ℚ
  side : List ℚ
  width : List ℚ
  uv : List ℚ
  index : List ℕ
  counters : List ℚ
  posDirty : Bool
  prevDirty : Bool
  nextDirty : Bool
  sideDirty : Bool
  widthDirty : Bool
  uvDirty : Bool
  indexDirty : Bool
  countersDirty : Bool
deriving DecidableEq, Repr

/-- The geometry state: the stored points reference, the public width callback,
the private attribute set (null before the first successful tessellation), and
the allocation counter backing `Attrs.gen`. -/
structure MeshLineGeometry where
  points : PointsInput
  widthCallback : Option (ℚ → ℚ)
  attributes : Option Attrs
  nextGen : ℕ

/-- A freshly constructed `MeshLineGeometry` (field initializers, lines 11-51). -/
def emptyGeo : MeshLineGeometry :=
  { points := .flat [], widthCallback := none, attributes := none, nextGen := 0 }

/-- A fresh attribute set (lines 200-209): new `BufferAttribute`s from the
current arrays; a new `Uint16Array` reduces each index modulo 2^16; no
`needsUpdate` flag is raised on a brand-new attribute. -/
def freshAttrs (gen : ℕ) (positions counters : List ℚ) (t : Tess) : Attrs :=
  { gen := gen
    position := positions
    previous := t.previous
    next := t.next
    side := t.side
    width := t.width
    uv := t.uvs
    index := t.indices.map (fun i => i % 65536)
    counters := counters
    posDirty := false, prevDirty := false, nextDirty := false
    sideDirty := false, widthDirty := false, uvDirty := false
    indexDirty := false, countersDirty := false }

/-- The attribute (re)allocation logic at the end of `#process` (lines 197-225):
allocate fresh attributes when none exist or when
`position.count * 3 !== positions.length`; otherwise `copyArray` the new
contents into the existing objects and raise their `needsUpdate` flags.  The
source's reuse branch omits the `counters` attribute from the `copyArray`
sequence, so its stored contents and flag are left untouched here. -/
def applyAttrs (g : MeshLineGeometry) (positions counters : List ℚ) (t : Tess) :
    MeshLineGeometry :=
  match g.attributes with
  | some a =>
    if (a.position.length / 3) * 3 = positions.length then
      { g with attributes := some { a with
          position := positions, posDirty := true
          previous := t.previous, prevDirty := true
          next := t.next, nextDirty := true
          side := t.side, sideDirty := true
          width := t.width, widthDirty := true
          uv := t.uvs, uvDirty := true
          index := t.indices.map (fun i => i % 65536), indexDirty := true } }
    else
      { g with attributes := some (freshAttrs g.nextGen positions counters t)
               nextGen := g.nextGen + 1 }
  | none =>
      { g with attributes := some (freshAttrs g.nextGen positions counters t)
               nextGen := g.nextGen + 1 }

/-- `if (wcb) this.widthCallback = wcb` (line 76): a supplied callback replaces
the stored one, otherwise the stored one is kept. -/
def effWcb (wcb old : Option (ℚ → ℚ)) : Option (ℚ → ℚ) :=
  match wcb with
  | some f => some f
  | none => old

/-- `setPoints` (lines 65-110): return unchanged on an empty input; store the
points reference; update the width callback when one is supplied; build the
doubled positions and the counters; tessellate via `#process`; then allocate or
refresh the attribute set. -/
def setPoints (g : MeshLineGeometry) (pointsIn : PointsInput)
    (wcb : Option (ℚ → ℚ)) : Except MLError MeshLineGeometry :=
  if inputLength pointsIn = 0 then .ok g
  else do
    let widthCallback := effWcb wcb g.widthCallback
    let g1 := { g with points := pointsIn, widthCallback := widthCallback }
    let pc ← buildPositions pointsIn
    let t ← process pc.1 widthCallback
    pure (applyAttrs g1 pc.1 pc.2 t)

/-- The body of the `memcpy` loop (lines 289-294) for distinct `src`/`dst`
arrays, with both cursors advanced instead of the common offset `i`: copy `n`
scalars from `src` starting at `srcBegin` into `dst` starting at `dstOffset`,
throwing `missing src value` on an absent read. -/
def memcpyLoop (src : List ℚ) : ℕ → ℕ → ℕ → List ℚ → Except MLError (List ℚ)
  | _, _, 0, dst => .ok dst
  | srcBegin, dstOffset, n + 1, dst =>
    match src[srcBegin]? with
    | none => .error .missingSrcValue
    | some v => memcpyLoop src (srcBegin + 1) (dstOffset + 1) n (dst.set dstOffset v)

/-- `memcpy` (lines 285-295) where `src` and `dst` are distinct arrays: the
`@prod-prune` bound check, then the copy loop. -/
def memcpy (src : List ℚ) (srcBegin : ℕ) (dst : List ℚ) (dstOffset srcLength : ℕ) :
    Except MLError (List ℚ) :=
  if dstOffset + srcLength > dst.length then .error .notEnoughSpace
  else memcpyLoop src srcBegin dstOffset srcLength dst

/-- The same loop for the aliased call `memcpy(positions, 6, positions, 0, …)`
of `advance`: reads and writes interleave on one buffer, exactly as the JS loop
does on the shared array. -/
def memcpySelfLoop : ℕ → ℕ → ℕ → List ℚ → Except MLError (List ℚ)
  | _, _, 0, buf => .ok buf
  | srcBegin, dstOffset, n + 1, buf =>
    match buf[srcBegin]? with
    | none => .error .missingSrcValue
    | some v => memcpySelfLoop (srcBegin + 1) (dstOffset + 1) n (buf.set dstOffset v)

/-- `memcpy` (lines 285-295) where `src` and `dst` are the same array. -/
def memcpySelf (buf : List ℚ) (srcBegin dstOffset srcLength : ℕ) :
    Except MLError (List ℚ) :=
  if dstOffset + srcLength > buf.length then .error .notEnoughSpace
  else memcpySelfLoop srcBegin dstOffset srcLength buf

/-- A point written twice in a row: the six scalars both rails share. -/
def dup6 (p : V3) : List ℚ := [p.x, p.y, p.z, p.x, p.y, p.z]

/-- The six assignments `a[l-6] = p.x; …; a[l-1] = p.z` of `advance`
(lines 259-264 and 268-273). -/
def writeLast6 (l : ℕ) (p : V3) (a : List ℚ) : List ℚ :=
  (((((a.set (l - 6) p.x).set (l - 5) p.y).set (l - 4) p.z).set
      (l - 3) p.x).set (l - 2) p.y).set (l - 1) p.z

/-- `advance` (lines 244-278): fail when no attributes exist yet; copy the whole
position array into `previous`; shift `position` left by one point (6 scalars)
in place and write the new point into the freed last slot; copy the post-shift
positions (offset by 6) into `next` and write the new point at its end; raise
`needsUpdate` on exactly `position`, `previous` and `next`. -/
def advance (g : MeshLineGeometry) (p : V3) : Except MLError MeshLineGeometry :=
  match g.attributes with
  | none => .error .notInitialized
  | some a => do
    let l := a.position.length
    let previous ← memcpy a.position 0 a.previous 0 l
    let positions0 ← memcpySelf a.position 6 0 (l - 6)
    let positions := writeLast6 l p positions0
    let next0 ← memcpy positions 6 a.next 0 (l - 6)
    let next := writeLast6 l p next0
    pure { g with attributes := some { a with
      position := positions, previous := previous, next := next
      posDirty := true, prevDirty := true, nextDirty := true } }

/-- A recorded intersection (lines 368-377): distance along the ray in world
space, the world-space closest point on the segment, and the loop index `i`. -/
structure Inter where
  distance : ℚ
  point : V3
  index : ℕ
deriving DecidableEq, Repr

/-- The inputs of `MeshLineRaycast` (THREE.MeshLine.ts lines 308-382).
Geometry buffers appear as lists; the external three.js float math is
abstracted into oracles: `sphereHit` is the outcome of the world-space
bounding-sphere test (lines 320-326), `distSqToSegment a b` the squared
local-space ray/segment distance returned by `Ray.distanceSqToSegment`, and
`worldDist i` / `worldPoint i` the world-space ray-origin distance and
world-space segment point obtained at loop index `i` (lines 362-372).
`segmented` is `mesh instanceof LineSegments`; `threshold` is
`raycaster.params.Line.threshold`. -/
structure RaycastEnv where
  sphereHit : Bool
  segmented : Bool
  indices : List ℕ
  positions : List ℚ
  widths : List ℚ
  lineWidth : ℚ
  threshold : ℚ
  near : ℚ
  far : ℚ
  distSqToSegment : V3 → V3 → ℚ
  worldDist : ℕ → ℚ
  worldPoint : ℕ → V3

/-- The loop step (line 334): 2 in segmented mode, else 1. -/
def RaycastEnv.step (env : RaycastEnv) : ℕ := if env.segmented then 2 else 1

/-- `Vector3.fromArray`: read three consecutive scalars (missing entries read as
0 here; unreachable for the well-formed buffers the geometry builds). -/
def vecAt (positions : List ℚ) (off : ℕ) : V3 :=
  ⟨(positions[off]?).getD 0, (positions[off + 1]?).getD 0, (positions[off + 2]?).getD 0⟩

/-- The per-segment width lookup (line 351): `widths[Math.floor(i / 3)]`,
defaulting to 1 when the slot is out of range. -/
def widthAt (widths : List ℚ) (i : ℕ) : ℚ := (widths[i / 3]?).getD 1

/-- The accept-and-range test applied at loop index `i` (lines 349-366): the
squared local ray-segment distance is at most
`(threshold + lineWidth * width / 2)^2`, and the world-space distance lies
within `[near, far]`; both rejections `continue` the scan. -/
def pickHit (env : RaycastEnv) (i : ℕ) : Bool :=
  let a := (env.indices[i]?).getD 0
  let b := (env.indices[i + 1]?).getD 0
  let vStart := vecAt env.positions (a * 3)
  let vEnd := vecAt env.positions (b * 3)
  let precision := env.threshold + env.lineWidth * widthAt env.widths i / 2
  let distSq := env.distSqToSegment vStart vEnd
  let d := env.worldDist i
  decide (distSq ≤ precision * precision) && decide (env.near ≤ d) && decide (d ≤ env.far)

/-- The intersection record pushed for loop index `i`. -/
def mkInter (env : RaycastEnv) (i : ℕ) : Inter :=
  ⟨env.worldDist i, env.worldPoint i, i⟩

/-- The scan loop of `MeshLineRaycast` (lines 343-380): walk `i` from 0 below
`l = indices.length - 1` in steps of `step`; on the first index passing
`pickHit` push one intersection and set `i = l`, ending the scan. -/
def raycastLoop (env : RaycastEnv) (l : ℕ) (i : ℕ) : List Inter :=
  if h : i < l then
    if pickHit env i then [mkInter env i]
    else raycastLoop env l (i + env.step)
  else []
termination_by l - i
decreasing_by
  simp only [RaycastEnv.step]
  split <;> omega

/-- `MeshLineRaycast` (lines 308-382): return nothing when the ray misses the
world-space bounding sphere, otherwise run the scan from index 0. -/
def meshLineRaycast (env : RaycastEnv) : List Inter :=
  if env.sphereHit then raycastLoop env (env.indices.length - 1) 0 else []

/-- The loop indices the scan visits: `0, step, 2·step, …` strictly below
`indices.length - 1`. -/
def scanIndices (env : RaycastEnv) : List ℕ :=
  List.range' 0 ((env.indices.length - 1 + env.step - 1) / env.step) env.step

/-! Closed-form descriptions of the tessellation output, used to state the
claims; the lemmas below prove the loop produces exactly these. -/

/-- The doubled flat position array built from a `Vector3[]` input. -/
def dupPoints (pts : List V3) : List ℚ := pts.flatMap dup6

/-- The flat 3-scalars-per-point encoding of a point list. -/
def flatOf (pts : List V3) : List ℚ := pts.flatMap (fun p => [p.x, p.y, p.z])

/-- Parse a flat scalar array back into complete points (incomplete trailing
scalars are dropped). -/
def toV3s : List ℚ → List V3
  | x :: y :: z :: rest => ⟨x, y, z⟩ :: toV3s rest
  | _ => []

/-- Number of points an input denotes (for a flat array, complete triples). -/
def inputPointCount : PointsInput → ℕ
  | .vec3 pts => pts.length
  | .flat arr => (toV3s arr).length

/-- The counters `setPoints` emits for `n` points: `j / n` twice per point. -/
def countersOf (n : ℕ) : List ℚ :=
  (List.range n).flatMap (fun j => [(j : ℚ) / (n : ℚ), (j : ℚ) / (n : ℚ)])

/-- The boundary `previous` point (lines 146-150): point `N-2` when the line is
a closed loop (first point equals last point exactly), else point 0 itself. -/
def prevFirst (pts : List V3) : V3 :=
  if pts.getD 0 default = pts.getD (pts.length - 1) default then
    pts.getD (pts.length - 2) default
  else pts.getD 0 default

/-- The boundary `next` point (lines 188-195): point 1 when the line is a
closed loop, else point `N-1` itself. -/
def nextLast (pts : List V3) : V3 :=
  if pts.getD (pts.length - 1) default = pts.getD 0 default then
    pts.getD 1 default
  else pts.getD (pts.length - 1) default

/-- The six indices of segment `j`: triangles `(n, n+1, n+2)` and
`(n+2, n+1, n+3)` with quad base `n = 2j`. -/
def segIdx (j : ℕ) : List ℕ :=
  [j * 2, j * 2 + 1, j * 2 + 2, j * 2 + 2, j * 2 + 1, j * 2 + 3]

/-- The tessellation output for `N ≥ 2` points, in closed form. -/
def tessSpec (pts : List V3) (wcb : Option (ℚ → ℚ)) : Tess :=
  { previous := dup6 (prevFirst pts) ++
      (List.range (pts.length - 1)).flatMap (fun k => dup6 (pts.getD k default))
    next := (List.range' 1 (pts.length - 1)).flatMap (fun k => dup6 (pts.getD k default)) ++
      dup6 (nextLast pts)
    side := (List.range pts.length).flatMap (fun _ => ([1, -1] : List ℚ))
    width := (List.range pts.length).flatMap
      (fun k => [widthOf wcb pts.length k, widthOf wcb pts.length k])
    uvs := (List.range pts.length).flatMap
      (fun k => [uOf pts.length k, 0, uOf pts.length k, 1])
    indices := (List.range (pts.length - 1)).flatMap segIdx }

/-- The point list an input denotes. -/
def ptsOf : PointsInput → List V3
  | .vec3 pts => pts
  | .flat arr => toV3s arr

/-- The positions/counters build of `setPoints` composed with `#process`:
everything tessellation emits for a `Vector3[]` input. -/
def tessellate (pts : List V3) (wcb : Option (ℚ → ℚ)) :
    Except MLError (List ℚ × List ℚ × Tess) := do
  let pc := buildVec3 pts.length pts 0
  let t ← process pc.1 wcb
  pure (pc.1, pc.2, t)

/-! Concrete data used by the witnesses and counterexamples. -/

/-- A three-point polyline. -/
def ptsA : List V3 := [⟨0, 0, 0⟩, ⟨1, 0, 0⟩, ⟨2, 0, 0⟩]

/-- A two-point polyline. -/
def ptsB : List V3 := [⟨0, 0, 0⟩, ⟨1, 0, 0⟩]

/-- Another two-point polyline. -/
def ptsC : List V3 := [⟨2, 0, 0⟩, ⟨3, 0, 0⟩]

/-- A 32769-point polyline: its last segment emits vertex indices 65536 and
65537, which do not fit in 16 bits. -/
def bigPts : List V3 := List.map (fun k : ℕ => (⟨(k : ℚ), 0, 0⟩ : V3)) (List.range 32769)

/-- The attribute set `setPoints` builds for `ptsB` on a fresh geometry. -/
def a1W : Attrs :=
  { gen := 0
    position := [0, 0, 0, 0, 0, 0, 1, 0, 0, 1, 0, 0]
    previous := [0, 0, 0, 0, 0, 0, 0, 0, 0, 0, 0, 0]
    next := [1, 0, 0, 1, 0, 0, 1, 0, 0, 1, 0, 0]
    side := [1, -1, 1, -1]
    width := [1, 1, 1, 1]
    uv := [0, 0, 0, 1, 1, 0, 1, 1]
    index := [0, 1, 2, 2, 1, 3]
    counters := [0, 0, 1/2, 1/2]
    posDirty := false, prevDirty := false, nextDirty := false
    sideDirty := false, widthDirty := false, uvDirty := false
    indexDirty := false, countersDirty := false }

/-- The geometry state after `setPoints(ptsB)` on a fresh geometry. -/
def g1W : MeshLineGeometry :=
  { points := .vec3 ptsB, widthCallback := none, attributes := some a1W, nextGen := 1 }

/-- The attribute set after rebuilding `g1W` with `ptsC` (same vertex count):
contents refreshed in place, `needsUpdate` raised on everything except the
`counters` attribute, which the source never copies in the reuse branch. -/
def a2W : Attrs :=
  { gen := 0
    position := [2, 0, 0, 2, 0, 0, 3, 0, 0, 3, 0, 0]
    previous := [2, 0, 0, 2, 0, 0, 2, 0, 0, 2, 0, 0]
    next := [3, 0, 0, 3, 0, 0, 3, 0, 0, 3, 0, 0]
    side := [1, -1, 1, -1]
    width := [1, 1, 1, 1]
    uv := [0, 0, 0, 1, 1, 0, 1, 1]
    index := [0, 1, 2, 2, 1, 3]
    counters := [0, 0, 1/2, 1/2]
    posDirty := true, prevDirty := true, nextDirty := true
    sideDirty := true, widthDirty := true, uvDirty := true
    indexDirty := true, countersDirty := false }

/-- The geometry state after the second `setPoints(ptsC)` call. -/
def g2W : MeshLineGeometry :=
  { points := .vec3 ptsC, widthCallback := none, attributes := some a2W, nextGen := 1 }

/-! General list helpers. -/

theorem drop_range' (m : ℕ) : ∀ (s n : ℕ), (List.range' s n).drop m = List.range' (s + m) (n - m) := by
  induction m with
  | zero => intro s n; simp
  | succ m ih =>
    intro s n
    cases n with
    | zero => simp
    | succ n =>
      rw [List.range'_succ, List.drop_succ_cons, ih (s + 1) n]
      congr 1 <;> omega

theorem flatMap_six_drop {α : Type} (f : α → List ℚ) (h6 : ∀ a, (f a).length = 6) (k : ℕ) :
    ∀ l : List α, (l.flatMap f).drop (6 * k) = (l.drop k).flatMap f := by
  induction k with
  | zero => intro l; simp
  | succ k ih =>
    intro l
    cases l with
    | nil => simp
    | cons a l =>
      rw [List.flatMap_cons, List.drop_succ_cons, ← ih l]
      have h1 : 6 * (k + 1) = (f a).length + 6 * k := by rw [h6]; ring
      rw [h1, List.drop_append]

theorem flatMap_six_getElem? {α : Type} (f : α → List ℚ) (h6 : ∀ a, (f a).length = 6)
    (q r : ℕ) (hr : r < 6) : ∀ l : List α,
    (l.flatMap f)[6 * q + r]? = (l[q]?).bind (fun a => (f a)[r]?) := by
  intro l
  rw [show 6 * q + r = 6 * q + r from rfl, ← List.getElem?_drop,
    flatMap_six_drop f h6 q l]
  cases hl : l[q]? with
  | none =>
    have : l.length ≤ q := by
      by_contra hq
      rw [List.getElem?_eq_getElem (by omega)] at hl
      exact Option.noConfusion hl
    rw [List.drop_eq_nil_of_le this]
    simp
  | some a =>
    have hq : q < l.length := by
      by_contra hq
      rw [List.getElem?_eq_none (by omega)] at hl
      exact Option.noConfusion hl
    rw [List.drop_eq_getElem_cons hq, List.flatMap_cons]
    have : l[q] = a := by
      have := List.getElem?_eq_getElem hq
      rw [hl] at this
      exact (Option.some_inj.mp this.symm)
    rw [this, Option.bind, List.getElem?_append_left (by rw [h6]; omega)]

theorem flatMap_six_idx_getElem? (q r : ℕ) (hr : r < 6) (l : List ℕ) (f : ℕ → List ℕ)
    (h6 : ∀ a, (f a).length = 6) :
    (l.flatMap f)[6 * q + r]? = (l[q]?).bind (fun a => (f a)[r]?) := by
  induction l generalizing q with
  | nil => simp
  | cons a t ih =>
    cases q with
    | zero =>
      rw [List.flatMap_cons, Nat.mul_zero, Nat.zero_add,
        List.getElem?_append_left (by rw [h6]; omega)]
      simp
    | succ q =>
      rw [List.flatMap_cons,
        show 6 * (q + 1) + r = (f a).length + (6 * q + r) by rw [h6]; ring,
        List.getElem?_append_right (by omega)]
      rw [show (f a).length + (6 * q + r) - (f a).length = 6 * q + r by omega, ih q]
      simp

theorem range'_three (n : ℕ) : ∀ j : ℕ, List.range' (3 * j) n 3 = (List.range' j n).map (fun k => 3 * k) := by
  induction n with
  | zero => intro j; simp
  | succ n ih =>
    intro j
    rw [List.range'_succ, List.range'_succ, List.map_cons, ← ih (j + 1)]
    congr 2

/-! Reading the doubled positions array built from a point list. -/

theorem dup6_length (p : V3) : (dup6 p).length = 6 := rfl

theorem dupPoints_length (pts : List V3) : (dupPoints pts).length = 6 * pts.length := by
  induction pts with
  | nil => rfl
  | cons p t ih =>
    simp only [dupPoints, List.flatMap_cons] at *
    simp [ih, dup6]
    omega

theorem flatOf_length (pts : List V3) : (flatOf pts).length = 3 * pts.length := by
  induction pts with
  | nil => rfl
  | cons p t ih =>
    simp only [flatOf, List.flatMap_cons] at *
    simp [ih]
    omega

theorem readAt_natCast (l : List ℚ) (m : ℕ) : readAt l (m : ℤ) = l[m]? := by
  simp [readAt, Int.toNat_natCast]

theorem dupPoints_getElem? (pts : List V3) (j r : ℕ) (hj : j < pts.length) (hr : r < 6) :
    (dupPoints pts)[j * 6 + r]? = (dup6 (pts.getD j default))[r]? := by
  unfold dupPoints
  rw [show j * 6 + r = 6 * j + r by ring,
    flatMap_six_getElem? dup6 (fun _ => rfl) j r hr pts,
    List.getElem?_eq_getElem hj]
  simp [List.getD, List.getElem?_eq_getElem hj]

theorem clonePoint_dup (pts : List V3) (j : ℕ) (hj : j < pts.length) :
    clonePoint (dupPoints pts) (j : ℤ) = .ok (pts.getD j default) := by
  have h0 : ((j : ℤ) * 6 + 0) = ((j * 6 + 0 : ℕ) : ℤ) := by push_cast; ring
  have h1 : ((j : ℤ) * 6 + 1) = ((j * 6 + 1 : ℕ) : ℤ) := by push_cast; ring
  have h2 : ((j : ℤ) * 6 + 2) = ((j * 6 + 2 : ℕ) : ℤ) := by push_cast; ring
  simp only [clonePoint, h0, h1, h2, readAt_natCast,
    dupPoints_getElem? pts j 0 hj (by omega),
    dupPoints_getElem? pts j 1 hj (by omega),
    dupPoints_getElem? pts j 2 hj (by omega)]
  rfl

theorem pointsAreEqual_dup (pts : List V3) (a b : ℕ) (ha : a < pts.length) (hb : b < pts.length) :
    pointsAreEqual (dupPoints pts) a b =
      decide (pts.getD a default = pts.getD b default) := by
  simp only [pointsAreEqual,
    dupPoints_getElem? pts a 0 ha (by omega), dupPoints_getElem? pts a 1 ha (by omega),
    dupPoints_getElem? pts a 2 ha (by omega),
    dupPoints_getElem? pts b 0 hb (by omega), dupPoints_getElem? pts b 1 hb (by omega),
    dupPoints_getElem? pts b 2 hb (by omega)]
  rcases hA : pts.getD a default with ⟨x1, y1, z1⟩
  rcases hB : pts.getD b default with ⟨x2, y2, z2⟩
  simp [dup6, V3.mk.injEq]
  by_cases h1 : x1 = x2 <;> by_cases h2 : y1 = y2 <;> by_cases h3 : z1 = z2 <;>
    simp [h1, h2, h3]

/-! The `#process` loop produces the closed-form fragments. -/

theorem processLoop_dup (pts : List V3) (wcb : Option (ℚ → ℚ)) :
    ∀ t j, pts.length - j ≤ t →
    processLoop (dupPoints pts) pts.length wcb j = .ok
      { previous := (List.range' j (pts.length - 1 - j)).flatMap (fun k => dup6 (pts.getD k default))
        next := (List.range' (max j 1) (pts.length - max j 1)).flatMap (fun k => dup6 (pts.getD k default))
        side := (List.range' j (pts.length - j)).flatMap (fun _ => ([1, -1] : List ℚ))
        width := (List.range' j (pts.length - j)).flatMap
          (fun k => [widthOf wcb pts.length k, widthOf wcb pts.length k])
        uvs := (List.range' j (pts.length - j)).flatMap
          (fun k => [uOf pts.length k, 0, uOf pts.length k, 1])
        indices := (List.range' j (pts.length - 1 - j)).flatMap segIdx } := by
  intro t
  induction t with
  | zero =>
    intro j hjt
    have hjN : ¬ j < pts.length := by omega
    have e0 : pts.length - j = 0 := by omega
    have e1 : pts.length - 1 - j = 0 := by omega
    have e2 : pts.length - max j 1 = 0 := by omega
    rw [processLoop]
    simp [hjN, e0, e1, e2]
    rfl
  | succ t ih =>
    intro j hjt
    by_cases hjN : j < pts.length
    · have hrest := ih (j + 1) (by omega)
      rw [processLoop]
      simp only [dif_pos hjN]
      by_cases hseg : j < pts.length - 1
      · rw [clonePoint_dup pts j hjN]
        by_cases hj0 : 0 < j
        · simp only [if_pos hseg, if_pos hj0, clonePoint_dup pts j hjN, hrest]
          simp only [Except.bind, bind, pure, Except.pure, Except.ok.injEq, Tess.mk.injEq]
          refine ⟨?_, ?_, ?_, ?_, ?_, ?_⟩
          · rw [show pts.length - 1 - j = (pts.length - 1 - (j + 1)) + 1 by omega,
              List.range'_succ, List.flatMap_cons]
            simp [dup6]
          · rw [Nat.max_eq_left hj0, Nat.max_eq_left (by omega : 1 ≤ j + 1),
              show pts.length - j = (pts.length - (j + 1)) + 1 by omega,
              List.range'_succ, List.flatMap_cons]
            simp [dup6]
          · rw [show pts.length - j = (pts.length - (j + 1)) + 1 by omega,
              List.range'_succ, List.flatMap_cons]
            simp
          · rw [show pts.length - j = (pts.length - (j + 1)) + 1 by omega,
              List.range'_succ, List.flatMap_cons]
            simp
          · rw [show pts.length - j = (pts.length - (j + 1)) + 1 by omega,
              List.range'_succ, List.flatMap_cons]
            simp
          · rw [show pts.length - 1 - j = (pts.length - 1 - (j + 1)) + 1 by omega,
              List.range'_succ, List.flatMap_cons]
            simp [segIdx]
        · have hj : j = 0 := by omega
          subst hj
          simp only [if_pos hseg, if_neg hj0, clonePoint_dup pts 0 hjN, hrest]
          simp only [Except.bind, bind, pure, Except.pure, Except.ok.injEq, Tess.mk.injEq]
          refine ⟨?_, ?_, ?_, ?_, ?_, ?_⟩
          · rw [show pts.length - 1 - 0 = (pts.length - 1 - 1) + 1 by omega,
              List.range'_succ, List.flatMap_cons]
            simp [dup6]
          · norm_num
          · rw [show pts.length - 0 = (pts.length - 1) + 1 by omega,
              List.range'_succ, List.flatMap_cons]
            simp
          · rw [show pts.length - 0 = (pts.length - 1) + 1 by omega,
              List.range'_succ, List.flatMap_cons]
            simp
          · rw [show pts.length - 0 = (pts.length - 1) + 1 by omega,
              List.range'_succ, List.flatMap_cons]
            simp
          · rw [show pts.length - 1 - 0 = (pts.length - 1 - 1) + 1 by omega,
              List.range'_succ, List.flatMap_cons]
            simp [segIdx]
      · have hlast : j = pts.length - 1 := by omega
        have hj0 : 0 < j ∨ j = 0 := by omega
        rcases hj0 with hj0 | hj0
        · simp only [if_neg hseg, if_pos hj0, clonePoint_dup pts j hjN, hrest]
          simp only [Except.bind, bind, pure, Except.pure, Except.ok.injEq, Tess.mk.injEq]
          refine ⟨?_, ?_, ?_, ?_, ?_, ?_⟩
          · have e1 : pts.length - 1 - j = 0 := by omega
            have e2 : pts.length - 1 - (j + 1) = 0 := by omega
            simp [e1, e2]
          · rw [Nat.max_eq_left hj0, Nat.max_eq_left (by omega : 1 ≤ j + 1),
              show pts.length - j = (pts.length - (j + 1)) + 1 by omega,
              List.range'_succ, List.flatMap_cons]
            simp [dup6]
          · rw [show pts.length - j = (pts.length - (j + 1)) + 1 by omega,
              List.range'_succ, List.flatMap_cons]
            simp
          · rw [show pts.length - j = (pts.length - (j + 1)) + 1 by omega,
              List.range'_succ, List.flatMap_cons]
            simp
          · rw [show pts.length - j = (pts.length - (j + 1)) + 1 by omega,
              List.range'_succ, List.flatMap_cons]
            simp
          · have e1 : pts.length - 1 - j = 0 := by omega
            have e2 : pts.length - 1 - (j + 1) = 0 := by omega
            simp [e1, e2]
        · subst hj0
          have hN1 : pts.length = 1 := by omega
          simp only [if_neg hseg, hrest]
          simp [Except.bind, bind, pure, Except.pure, hN1, List.range'_succ, List.range'_one]
    · have e0 : pts.length - j = 0 := by omega
      have e1 : pts.length - 1 - j = 0 := by omega
      have e2 : pts.length - max j 1 = 0 := by omega
      rw [processLoop]
      simp [hjN, e0, e1, e2]
      rfl

theorem process_dup (pts : List V3) (wcb : Option (ℚ → ℚ)) (h2 : 2 ≤ pts.length) :
    process (dupPoints pts) wcb = .ok (tessSpec pts wcb) := by
  have hN0 : 0 < pts.length := by omega
  have hN1 : pts.length - 1 < pts.length := by omega
  have hloop := processLoop_dup pts wcb pts.length 0 (by omega)
  have c0 : clonePoint (dupPoints pts) (0 : ℤ) = .ok (pts.getD 0 default) := by
    have := clonePoint_dup pts 0 hN0
    simpa using this
  have c1 : clonePoint (dupPoints pts) (1 : ℤ) = .ok (pts.getD 1 default) := by
    have := clonePoint_dup pts 1 (by omega)
    simpa using this
  have cm2 : clonePoint (dupPoints pts) ((pts.length : ℤ) - 2) =
      .ok (pts.getD (pts.length - 2) default) := by
    rw [show ((pts.length : ℤ) - 2) = ((pts.length - 2 : ℕ) : ℤ) by omega]
    exact clonePoint_dup pts (pts.length - 2) (by omega)
  have cm1 : clonePoint (dupPoints pts) ((pts.length : ℤ) - 1) =
      .ok (pts.getD (pts.length - 1) default) := by
    rw [show ((pts.length : ℤ) - 1) = ((pts.length - 1 : ℕ) : ℤ) by omega]
    exact clonePoint_dup pts (pts.length - 1) (by omega)
  unfold process
  rw [dupPoints_length, Nat.mul_div_cancel_left _ (by norm_num : 0 < 6)]
  dsimp only
  rw [pointsAreEqual_dup pts 0 (pts.length - 1) hN0 hN1,
      pointsAreEqual_dup pts (pts.length - 1) 0 hN1 hN0]
  rw [hloop]
  simp only [decide_eq_true_eq]
  by_cases hP : pts.getD 0 default = pts.getD (pts.length - 1) default
  · have ePrev : prevFirst pts = pts.getD (pts.length - 2) default := by
      rw [prevFirst, if_pos hP]
    have eNext : nextLast pts = pts.getD 1 default := by
      rw [nextLast, if_pos hP.symm]
    rw [if_pos hP, cm2]
    simp only [Except.bind, bind]
    rw [if_pos hP.symm, c1]
    simp only [Except.bind, bind, pure, Except.pure]
    simp [tessSpec, ePrev, eNext, dup6, List.range_eq_range']
  · have hQ : ¬ pts.getD (pts.length - 1) default = pts.getD 0 default :=
      fun h => hP h.symm
    have ePrev : prevFirst pts = pts.getD 0 default := by
      rw [prevFirst, if_neg hP]
    have eNext : nextLast pts = pts.getD (pts.length - 1) default := by
      rw [nextLast, if_neg hQ]
    rw [if_neg hP, c0]
    simp only [Except.bind, bind]
    rw [if_neg hQ, cm1]
    simp only [Except.bind, bind, pure, Except.pure]
    simp [tessSpec, ePrev, eNext, dup6, List.range_eq_range']

/-! The two input branches of `setPoints`. -/

theorem buildVec3_eq (n : ℕ) (pts : List V3) : ∀ j : ℕ,
    buildVec3 n pts j = (dupPoints pts,
      (List.range' j pts.length).flatMap
        (fun k => [(k : ℚ) / (n : ℚ), (k : ℚ) / (n : ℚ)])) := by
  induction pts with
  | nil => intro j; simp [buildVec3, dupPoints]
  | cons p t ih =>
    intro j
    simp only [buildVec3, ih (j + 1), List.length_cons, List.range'_succ,
      List.flatMap_cons, dupPoints, dup6]
    simp

theorem buildVec3_fst (pts : List V3) : (buildVec3 pts.length pts 0).1 = dupPoints pts := by
  rw [buildVec3_eq]

theorem buildVec3_snd (pts : List V3) :
    (buildVec3 pts.length pts 0).2 = countersOf pts.length := by
  rw [buildVec3_eq, countersOf, List.range_eq_range']

theorem buildFlat_suffix (arr : List ℚ) : ∀ (qts : List V3) (j : ℕ),
    arr.drop j = flatOf qts → arr.length = j + 3 * qts.length →
    buildFlat arr j = .ok (dupPoints qts,
      (List.range' j qts.length 3).flatMap
        (fun m => [(m : ℚ) / (arr.length : ℚ), (m : ℚ) / (arr.length : ℚ)])) := by
  intro qts
  induction qts with
  | nil =>
    intro j hdrop hlen
    have hj : ¬ j < arr.length := by simp at hlen; omega
    rw [buildFlat]
    simp [hj, dupPoints]
    rfl
  | cons p t ih =>
    intro j hdrop hlen
    have hlen' : arr.length = j + 3 * (t.length + 1) := by simpa using hlen
    have hj : j < arr.length := by omega
    have hd : arr.drop j = p.x :: p.y :: p.z :: flatOf t := by
      rw [hdrop]; rfl
    have hx : arr[j]? = some p.x := by
      have h := List.getElem?_drop arr j 0
      rw [hd] at h
      simpa using h.symm
    have hy : arr[j + 1]? = some p.y := by
      have h := List.getElem?_drop arr j 1
      rw [hd] at h
      simpa using h.symm
    have hz : arr[j + 2]? = some p.z := by
      have h := List.getElem?_drop arr j 2
      rw [hd] at h
      simpa using h.symm
    have hrec := ih (j + 3)
      (by rw [← List.drop_drop, hd]; rfl)
      (by omega)
    rw [buildFlat]
    simp only [dif_pos hj, hx, hy, hz]
    rw [hrec]
    simp only [Except.bind, bind, pure, Except.pure]
    simp only [List.length_cons, List.range'_succ, List.flatMap_cons, dupPoints, dup6]
    simp

theorem buildFlat_flatOf (pts : List V3) :
    buildFlat (flatOf pts) 0 = .ok (dupPoints pts,
      (List.range' 0 pts.length 3).flatMap
        (fun m => [(m : ℚ) / (((flatOf pts).length : ℕ) : ℚ),
                   (m : ℚ) / (((flatOf pts).length : ℕ) : ℚ)])) :=
  buildFlat_suffix (flatOf pts) pts 0 (by simp) (by simp [flatOf_length])

theorem counters_flat_eq (n : ℕ) :
    (List.range' 0 n 3).flatMap
      (fun m => [(m : ℚ) / ((3 * n : ℕ) : ℚ), (m : ℚ) / ((3 * n : ℕ) : ℚ)]) =
    countersOf n := by
  rw [show (0 : ℕ) = 3 * 0 by ring, range'_three, List.flatMap_map,
    countersOf, List.range_eq_range']
  congr 1
  funext k
  have h3 : ((3 : ℚ)) ≠ 0 := by norm_num
  push_cast
  rw [mul_div_mul_left _ _ h3]

theorem toV3s_flatOf : ∀ (n : ℕ) (arr : List ℚ), arr.length ≤ n → 3 ∣ arr.length →
    flatOf (toV3s arr) = arr ∧ 3 * (toV3s arr).length = arr.length := by
  intro n
  induction n with
  | zero =>
    intro arr hlen _
    have : arr = [] := List.eq_nil_of_length_eq_zero (by omega)
    subst this
    simp [toV3s, flatOf]
  | succ n ih =>
    intro arr hlen hdvd
    match arr with
    | [] => simp [toV3s, flatOf]
    | [x] => exact absurd (by simpa using hdvd : (3 : ℕ) ∣ 1) (by decide)
    | [x, y] => exact absurd (by simpa using hdvd : (3 : ℕ) ∣ 2) (by decide)
    | x :: y :: z :: rest =>
      have hr : rest.length ≤ n := by simp at hlen; omega
      have hd : 3 ∣ rest.length := by
        simp at hdvd ⊢
        omega
      have := ih rest hr hd
      rw [show toV3s (x :: y :: z :: rest) = ⟨x, y, z⟩ :: toV3s rest from rfl]
      constructor
      · rw [show flatOf (⟨x, y, z⟩ :: toV3s rest) = x :: y :: z :: flatOf (toV3s rest) from rfl,
          this.1]
      · simp
        omega

theorem buildFlat_not_dvd (arr : List ℚ) : ∀ (t j : ℕ), arr.length - j ≤ t →
    ¬ (3 ∣ arr.length - j) → buildFlat arr j = .error .pointMissing := by
  intro t
  induction t with
  | zero =>
    intro j hjt hdvd
    exact absurd (by omega : 3 ∣ arr.length - j) hdvd
  | succ t ih =>
    intro j hjt hdvd
    have hj : j < arr.length := by omega
    rw [buildFlat]
    simp only [dif_pos hj]
    by_cases h1 : arr.length - j = 1
    · have hy : arr[j + 1]? = none := List.getElem?_eq_none (by omega)
      rw [List.getElem?_eq_getElem hj, hy]
    · by_cases h2 : arr.length - j = 2
      · have hz : arr[j + 2]? = none := List.getElem?_eq_none (by omega)
        rw [List.getElem?_eq_getElem hj, List.getElem?_eq_getElem (by omega : j + 1 < arr.length), hz]
      · have h3 : j + 2 < arr.length := by omega
        rw [List.getElem?_eq_getElem hj, List.getElem?_eq_getElem (by omega : j + 1 < arr.length),
          List.getElem?_eq_getElem h3]
        rw [ih (j + 3) (by omega) (by omega)]
        rfl

theorem buildPositions_ok (i : PointsInput) (pos cnt : List ℚ)
    (h : buildPositions i = .ok (pos, cnt)) :
    pos = dupPoints (ptsOf i) ∧ cnt = countersOf (inputPointCount i) := by
  cases i with
  | vec3 pts =>
    simp only [buildPositions, buildVec3_eq pts.length pts 0, Except.ok.injEq] at h
    injection h with h1 h2
    subst h1
    subst h2
    simp [ptsOf, inputPointCount, countersOf, List.range_eq_range']
  | flat arr =>
    by_cases hdvd : 3 ∣ arr.length
    · have hfo := toV3s_flatOf arr.length arr le_rfl hdvd
      have hb := buildFlat_suffix arr (toV3s arr) 0
        (by rw [List.drop_zero, hfo.1]) (by omega)
      simp only [buildPositions] at h
      rw [hb] at h
      simp only [Except.ok.injEq] at h
      injection h with h1 h2
      subst h1
      subst h2
      constructor
      · simp [ptsOf]
      · rw [show arr.length = 3 * (toV3s arr).length by omega]
        rw [counters_flat_eq]
        simp [inputPointCount]
    · exfalso
      simp only [buildPositions] at h
      rw [buildFlat_not_dvd arr arr.length 0 (by omega) (by simpa using hdvd)] at h
      exact Except.noConfusion h

/-! Unfolding `setPoints` on its success path. -/

theorem setPoints_ok_iff (g : MeshLineGeometry) (i : PointsInput) (wcb : Option (ℚ → ℚ))
    (hne : inputLength i ≠ 0) (pos cnt : List ℚ) (t : Tess)
    (hb : buildPositions i = .ok (pos, cnt))
    (hp : process pos (effWcb wcb g.widthCallback) = .ok t) :
    setPoints g i wcb = .ok (applyAttrs
      { g with points := i, widthCallback := effWcb wcb g.widthCallback } pos cnt t) := by
  rw [setPoints, if_neg hne]
  simp only [hb, Except.bind, bind]
  simp only [hp, pure, Except.pure]

theorem setPoints_ok_inv (g : MeshLineGeometry) (i : PointsInput) (wcb : Option (ℚ → ℚ))
    (g2 : MeshLineGeometry) (h : setPoints g i wcb = .ok g2) (hne : inputLength i ≠ 0) :
    ∃ pos cnt t, buildPositions i = .ok (pos, cnt) ∧
      process pos (effWcb wcb g.widthCallback) = .ok t ∧
      g2 = applyAttrs { g with points := i, widthCallback := effWcb wcb g.widthCallback }
        pos cnt t := by
  rw [setPoints, if_neg hne] at h
  rcases hb : buildPositions i with e | pc
  · rw [hb] at h
    exact absurd h (by simp [Except.bind, bind])
  · obtain ⟨pos, cnt⟩ := pc
    rw [hb] at h
    simp only [Except.bind, bind] at h
    rcases hp : process pos (effWcb wcb g.widthCallback) with e | t
    · rw [hp] at h
      exact absurd h (by simp)
    · rw [hp] at h
      simp only [pure, Except.pure, Except.ok.injEq] at h
      exact ⟨pos, cnt, t, rfl, hp, h.symm⟩

/-! The copy loops of `advance`. -/

theorem set_take_succ (l : List ℚ) (i : ℕ) (v : ℚ) (h : i < l.length) :
    (l.set i v).take (i + 1) = l.take i ++ [v] := by
  rw [List.set_eq_take_append_cons_drop, if_pos h]
  have hlen : (l.take i).length = i := by simp; omega
  rw [show i + 1 = (l.take i).length + 1 by omega, List.take_append]
  simp

theorem set_drop_of_lt (l : List ℚ) (i j : ℕ) (v : ℚ) (h : i < j) :
    (l.set i v).drop j = l.drop j := by
  rw [List.drop_set, if_pos h]

theorem memcpyLoop_eq (src : List ℚ) : ∀ (n srcBegin dstOffset : ℕ) (dst : List ℚ),
    srcBegin + n ≤ src.length → dstOffset + n ≤ dst.length →
    memcpyLoop src srcBegin dstOffset n dst = .ok
      (dst.take dstOffset ++ (src.drop srcBegin).take n ++ dst.drop (dstOffset + n)) := by
  intro n
  induction n with
  | zero =>
    intro srcBegin dstOffset dst hs hd
    simp [memcpyLoop, List.take_append_drop]
  | succ n ih =>
    intro srcBegin dstOffset dst hs hd
    have hsb : srcBegin < src.length := by omega
    have hdo : dstOffset < dst.length := by omega
    rw [memcpyLoop, List.getElem?_eq_getElem hsb]
    change memcpyLoop src (srcBegin + 1) (dstOffset + 1) n (dst.set dstOffset src[srcBegin]) = _
    rw [ih (srcBegin + 1) (dstOffset + 1) (dst.set dstOffset src[srcBegin])
      (by omega) (by rw [List.length_set]; omega)]
    congr 1
    rw [set_take_succ dst dstOffset _ hdo,
      set_drop_of_lt dst dstOffset (dstOffset + 1 + n) _ (by omega),
      List.drop_eq_getElem_cons hsb, List.take_succ_cons,
      show dstOffset + (n + 1) = dstOffset + 1 + n by ring]
    simp

theorem memcpySelfLoop_eq : ∀ (n srcBegin dstOffset : ℕ) (buf : List ℚ),
    dstOffset + 6 = srcBegin → srcBegin + n ≤ buf.length →
    memcpySelfLoop srcBegin dstOffset n buf = .ok
      (buf.take dstOffset ++ (buf.drop srcBegin).take n ++ buf.drop (dstOffset + n)) := by
  intro n
  induction n with
  | zero =>
    intro srcBegin dstOffset buf hgap hs
    simp [memcpySelfLoop, List.take_append_drop]
  | succ n ih =>
    intro srcBegin dstOffset buf hgap hs
    have hsb : srcBegin < buf.length := by omega
    have hdo : dstOffset < buf.length := by omega
    rw [memcpySelfLoop, List.getElem?_eq_getElem hsb]
    change memcpySelfLoop (srcBegin + 1) (dstOffset + 1) n (buf.set dstOffset buf[srcBegin]) = _
    rw [ih (srcBegin + 1) (dstOffset + 1) (buf.set dstOffset buf[srcBegin])
      (by omega) (by rw [List.length_set]; omega)]
    congr 1
    rw [set_take_succ buf dstOffset _ hdo,
      set_drop_of_lt buf dstOffset (dstOffset + 1 + n) _ (by omega),
      set_drop_of_lt buf dstOffset (srcBegin + 1) _ (by omega),
      List.drop_eq_getElem_cons hsb, List.take_succ_cons,
      show dstOffset + (n + 1) = dstOffset + 1 + n by ring]
    simp

theorem memcpy_full (src dst : List ℚ) (h : dst.length = src.length) :
    memcpy src 0 dst 0 src.length = .ok src := by
  rw [memcpy, if_neg (by omega)]
  rw [memcpyLoop_eq src src.length 0 0 dst (by omega) (by omega)]
  have hnil : dst.drop (0 + src.length) = [] := List.drop_eq_nil_of_le (by rw [h]; omega)
  rw [hnil]
  simp only [List.take_zero, List.drop_zero, List.nil_append, List.append_nil, List.take_length]

theorem memcpy_shift (src dst : List ℚ) (l : ℕ) (hs : src.length = l)
    (hd : dst.length = l) (h6 : 6 ≤ l) :
    memcpy src 6 dst 0 (l - 6) = .ok ((src.drop 6).take (l - 6) ++ dst.drop (l - 6)) := by
  rw [memcpy, if_neg (by omega)]
  rw [memcpyLoop_eq src (l - 6) 6 0 dst (by omega) (by omega)]
  simp

theorem memcpySelf_shift (buf : List ℚ) (l : ℕ) (hb : buf.length = l) (h6 : 6 ≤ l) :
    memcpySelf buf 6 0 (l - 6) = .ok (buf.drop 6 ++ buf.drop (l - 6)) := by
  rw [memcpySelf, if_neg (by omega)]
  rw [memcpySelfLoop_eq (l - 6) 6 0 buf (by omega) (by omega)]
  have : (buf.drop 6).take (l - 6) = buf.drop 6 := by
    apply List.take_of_length_le
    simp
    omega
  simp [this]

theorem writeLast6_eq (l : ℕ) (p : V3) (a : List ℚ) (ha : a.length = l) (h6 : 6 ≤ l) :
    writeLast6 l p a = a.take (l - 6) ++ dup6 p := by
  have hlen : (a.take (l - 6)).length = l - 6 := by simp; omega
  apply List.ext_getElem?
  intro k
  by_cases h0 : k < l - 6
  · rw [writeLast6,
      List.getElem?_set_ne (by omega : l - 1 ≠ k),
      List.getElem?_set_ne (by omega : l - 2 ≠ k),
      List.getElem?_set_ne (by omega : l - 3 ≠ k),
      List.getElem?_set_ne (by omega : l - 4 ≠ k),
      List.getElem?_set_ne (by omega : l - 5 ≠ k),
      List.getElem?_set_ne (by omega : l - 6 ≠ k),
      List.getElem?_append_left (by omega), List.getElem?_take, if_pos h0]
  · by_cases h7 : l ≤ k
    · rw [writeLast6]
      rw [List.getElem?_eq_none (by simp [List.length_set, ha]; omega),
        List.getElem?_eq_none (by simp [dup6, ha]; omega)]
    · have hcase : k = l - 6 ∨ k = l - 5 ∨ k = l - 4 ∨ k = l - 3 ∨ k = l - 2 ∨ k = l - 1 := by
        omega
      rcases hcase with hk | hk | hk | hk | hk | hk <;> subst hk <;> rw [writeLast6]
      · rw [List.getElem?_set_ne (by omega : l - 1 ≠ l - 6),
          List.getElem?_set_ne (by omega : l - 2 ≠ l - 6),
          List.getElem?_set_ne (by omega : l - 3 ≠ l - 6),
          List.getElem?_set_ne (by omega : l - 4 ≠ l - 6),
          List.getElem?_set_ne (by omega : l - 5 ≠ l - 6),
          List.getElem?_set_self (by simp [ha]; omega),
          List.getElem?_append_right (by rw [hlen]),
          hlen, show l - 6 - (l - 6) = 0 by omega]
        rfl
      · rw [List.getElem?_set_ne (by omega : l - 1 ≠ l - 5),
          List.getElem?_set_ne (by omega : l - 2 ≠ l - 5),
          List.getElem?_set_ne (by omega : l - 3 ≠ l - 5),
          List.getElem?_set_ne (by omega : l - 4 ≠ l - 5),
          List.getElem?_set_self (by simp [List.length_set, ha]; omega),
          List.getElem?_append_right (by rw [hlen]; omega),
          hlen, show l - 5 - (l - 6) = 1 by omega]
        rfl
      · rw [List.getElem?_set_ne (by omega : l - 1 ≠ l - 4),
          List.getElem?_set_ne (by omega : l - 2 ≠ l - 4),
          List.getElem?_set_ne (by omega : l - 3 ≠ l - 4),
          List.getElem?_set_self (by simp [List.length_set, ha]; omega),
          List.getElem?_append_right (by rw [hlen]; omega),
          hlen, show l - 4 - (l - 6) = 2 by omega]
        rfl
      · rw [List.getElem?_set_ne (by omega : l - 1 ≠ l - 3),
          List.getElem?_set_ne (by omega : l - 2 ≠ l - 3),
          List.getElem?_set_self (by simp [List.length_set, ha]; omega),
          List.getElem?_append_right (by rw [hlen]; omega),
          hlen, show l - 3 - (l - 6) = 3 by omega]
        rfl
      · rw [List.getElem?_set_ne (by omega : l - 1 ≠ l - 2),
          List.getElem?_set_self (by simp [List.length_set, ha]; omega),
          List.getElem?_append_right (by rw [hlen]; omega),
          hlen, show l - 2 - (l - 6) = 4 by omega]
        rfl
      · rw [List.getElem?_set_self (by simp [List.length_set, ha]; omega),
          List.getElem?_append_right (by rw [hlen]; omega),
          hlen, show l - 1 - (l - 6) = 5 by omega]
        rfl

/-! The raycast scan is a first-match search over the visited indices. -/

theorem raycastLoop_eq (env : RaycastEnv) (l : ℕ) : ∀ (t i : ℕ), l - i ≤ t →
    raycastLoop env l i = (((List.range' i ((l - i + env.step - 1) / env.step) env.step).find?
      (pickHit env)).map (mkInter env)).toList := by
  have hs : env.step = 1 ∨ env.step = 2 := by
    rw [RaycastEnv.step]; split <;> simp
  intro t
  induction t with
  | zero =>
    intro i hit
    have hNi : ¬ i < l := by omega
    have hc : (l - i + env.step - 1) / env.step = 0 := by
      rcases hs with h | h <;> rw [h] <;> omega
    rw [raycastLoop, dif_neg hNi, hc]
    rfl
  | succ t ih =>
    intro i hit
    by_cases hil : i < l
    · have hc : (l - i + env.step - 1) / env.step
          = (l - (i + env.step) + env.step - 1) / env.step + 1 := by
        rcases hs with h | h <;> rw [h] <;> omega
      rw [raycastLoop, dif_pos hil, hc, List.range'_succ]
      by_cases hhit : pickHit env i = true
      · rw [if_pos hhit, List.find?_cons_of_pos _ hhit]
        rfl
      · rw [if_neg hhit, List.find?_cons_of_neg _ hhit,
          ih (i + env.step) (by rcases hs with h | h <;> omega)]
    · have hc : (l - i + env.step - 1) / env.step = 0 := by
        rcases hs with h | h <;> rw [h] <;> omega
      rw [raycastLoop, dif_neg hil, hc]
      rfl

/-! Tessellating a `Vector3[]` input, end to end. -/

theorem buildVec3_pair (pts : List V3) :
    buildVec3 pts.length pts 0 = (dupPoints pts, countersOf pts.length) := by
  rw [buildVec3_eq, countersOf, List.range_eq_range']

theorem tessellate_eq (pts : List V3) (wcb : Option (ℚ → ℚ)) (h2 : 2 ≤ pts.length) :
    tessellate pts wcb = .ok (dupPoints pts, countersOf pts.length, tessSpec pts wcb) := by
  unfold tessellate
  rw [buildVec3_pair]
  dsimp only
  rw [process_dup pts wcb h2]
  rfl

theorem flatMap_const_length {α β : Type} (f : α → List β) (c : ℕ)
    (h : ∀ a, (f a).length = c) (l : List α) : (l.flatMap f).length = c * l.length := by
  induction l with
  | nil => simp
  | cons a t ih =>
    rw [List.flatMap_cons, List.length_append, h, ih, List.length_cons]
    ring

theorem flatMap_pair_getElem? {α β : Type} (f : α → List β) (h2 : ∀ a, (f a).length = 2)
    (q r : ℕ) (hr : r < 2) (l : List α) :
    (l.flatMap f)[2 * q + r]? = (l[q]?).bind (fun a => (f a)[r]?) := by
  induction l generalizing q with
  | nil => simp
  | cons a t ih =>
    cases q with
    | zero =>
      rw [List.flatMap_cons, Nat.mul_zero, Nat.zero_add,
        List.getElem?_append_left (by rw [h2]; omega)]
      simp
    | succ q =>
      rw [List.flatMap_cons,
        show 2 * (q + 1) + r = (f a).length + (2 * q + r) by rw [h2]; ring,
        List.getElem?_append_right (by omega)]
      rw [show (f a).length + (2 * q + r) - (f a).length = 2 * q + r by omega, ih q]
      simp

theorem flatMap_quad_getElem? {α β : Type} (f : α → List β) (h4 : ∀ a, (f a).length = 4)
    (q r : ℕ) (hr : r < 4) (l : List α) :
    (l.flatMap f)[4 * q + r]? = (l[q]?).bind (fun a => (f a)[r]?) := by
  induction l generalizing q with
  | nil => simp
  | cons a t ih =>
    cases q with
    | zero =>
      rw [List.flatMap_cons, Nat.mul_zero, Nat.zero_add,
        List.getElem?_append_left (by rw [h4]; omega)]
      simp
    | succ q =>
      rw [List.flatMap_cons,
        show 4 * (q + 1) + r = (f a).length + (4 * q + r) by rw [h4]; ring,
        List.getElem?_append_right (by omega)]
      rw [show (f a).length + (4 * q + r) - (f a).length = 4 * q + r by omega, ih q]
      simp

/-! Concrete `setPoints` runs used by witnesses. -/

theorem buildPositions_vec3 (pts : List V3) :
    buildPositions (.vec3 pts) = .ok (dupPoints pts, countersOf pts.length) := by
  rw [buildPositions, buildVec3_pair]

theorem setPoints_B : setPoints emptyGeo (.vec3 ptsB) none = .ok g1W := by
  have h := setPoints_ok_iff emptyGeo (.vec3 ptsB) none (by decide)
    (dupPoints ptsB) (countersOf ptsB.length) (tessSpec ptsB none)
    (buildPositions_vec3 ptsB) (process_dup ptsB none (by decide))
  rw [h]
  simp only [applyAttrs, freshAttrs, emptyGeo, g1W, a1W, ptsB, tessSpec, prevFirst,
    nextLast, dupPoints, dup6, countersOf, segIdx, widthOf, uOf, effWcb,
    List.range_succ, List.range_zero]
  norm_num [V3.mk.injEq, dup6, List.flatMap_cons, List.flatMap_nil, segIdx,
    show List.range 2 = [0, 1] from rfl, show List.range 1 = [0] from rfl]

theorem setPoints_C : setPoints g1W (.vec3 ptsC) none = .ok g2W := by
  have h := setPoints_ok_iff g1W (.vec3 ptsC) none (by decide)
    (dupPoints ptsC) (countersOf ptsC.length) (tessSpec ptsC none)
    (buildPositions_vec3 ptsC) (process_dup ptsC none (by decide))
  rw [h]
  simp only [applyAttrs, freshAttrs, g1W, g2W, a1W, a2W, ptsC, tessSpec, prevFirst,
    nextLast, dupPoints, dup6, countersOf, segIdx, widthOf, uOf, effWcb,
    List.range_succ, List.range_zero]
  norm_num [V3.mk.injEq, dup6, List.flatMap_cons, List.flatMap_nil, segIdx,
    show List.range 2 = [0, 1] from rfl, show List.range 1 = [0] from rfl]

theorem ptsOf_length (i : PointsInput) : (ptsOf i).length = inputPointCount i := by
  cases i <;> rfl

/-! Claim theorems. -/

/-- C1 (amended to N ≥ 2; the N = 1 case of the original claim fails, see
`claim_C1_cex`): for every input of `N ≥ 2` points, tessellation succeeds and
emits exactly 2N vertices — positions of 6N scalars, counters of 2N entries,
previous/next of 6N scalars, side and width of 2N entries, uv of 4N scalars —
and exactly `6·(N−1)` triangle indices, where segment `j` with quad base
`n = 2j` contributes `(n, n+1, n+2)` and `(n+2, n+1, n+3)` (`segIdx`), and the
side values alternate `+1, −1` per point starting with `+1`. -/
theorem claim_C1 (pts : List V3) (wcb : Option (ℚ → ℚ)) (h2 : 2 ≤ pts.length) :
    ∃ out : List ℚ × List ℚ × Tess, tessellate pts wcb = .ok out ∧
      out.1.length = 3 * (2 * pts.length) ∧
      out.2.1.length = 2 * pts.length ∧
      out.2.2.previous.length = 3 * (2 * pts.length) ∧
      out.2.2.next.length = 3 * (2 * pts.length) ∧
      out.2.2.side.length = 2 * pts.length ∧
      out.2.2.width.length = 2 * pts.length ∧
      out.2.2.uvs.length = 2 * (2 * pts.length) ∧
      out.2.2.indices.length = 6 * max (pts.length - 1) 0 ∧
      out.2.2.indices = (List.range (pts.length - 1)).flatMap segIdx ∧
      out.2.2.side = (List.range pts.length).flatMap (fun _ => ([1, -1] : List ℚ)) := by
  refine ⟨(dupPoints pts, countersOf pts.length, tessSpec pts wcb),
    tessellate_eq pts wcb h2, ?_, ?_, ?_, ?_, ?_, ?_, ?_, ?_, rfl, rfl⟩
  · rw [dupPoints_length]; ring
  · dsimp only
    rw [countersOf, flatMap_const_length
      (fun j : ℕ => [(j : ℚ) / (pts.length : ℚ), (j : ℚ) / (pts.length : ℚ)]) 2
      (fun _ => rfl), List.length_range]
  · dsimp only
    rw [tessSpec]
    dsimp only
    rw [List.length_append, flatMap_const_length
      (fun k : ℕ => dup6 (pts.getD k default)) 6 (fun _ => rfl), List.length_range, dup6]
    simp
    omega
  · dsimp only
    rw [tessSpec]
    dsimp only
    rw [List.length_append, flatMap_const_length
      (fun k : ℕ => dup6 (pts.getD k default)) 6 (fun _ => rfl), List.length_range', dup6]
    simp
    omega
  · dsimp only
    rw [tessSpec]
    dsimp only
    rw [flatMap_const_length (fun _ => ([1, -1] : List ℚ)) 2 (fun _ => rfl), List.length_range]
  · dsimp only
    rw [tessSpec]
    dsimp only
    rw [flatMap_const_length
      (fun k : ℕ => [widthOf wcb pts.length k, widthOf wcb pts.length k]) 2
      (fun _ => rfl), List.length_range]
  · dsimp only
    rw [tessSpec]
    dsimp only
    rw [flatMap_const_length
      (fun k : ℕ => [uOf pts.length k, 0, uOf pts.length k, 1]) 4
      (fun _ => rfl), List.length_range]
    ring
  · dsimp only
    rw [tessSpec]
    dsimp only
    rw [flatMap_const_length segIdx 6 (fun _ => rfl), List.length_range]
    omega

/-- C1 counterexample: as stated over all N ≥ 1, the claim is false — for a
single-point input the tessellation does not emit 2 vertices and 0 indices but
throws `point missing`: the closed-loop test `pointsAreEqual(0, 0)` succeeds
and `clonePoint(pointCount - 2) = clonePoint(-1)` reads out of range. -/
theorem claim_C1_cex : tessellate [⟨1, 2, 3⟩] none = .error .pointMissing := rfl

/-- C1 witness: the theorem applied to the three collinear points of the spec's
end-to-end example. -/
theorem claim_C1_witness : 2 ≤ ptsA.length ∧
    (∃ out : List ℚ × List ℚ × Tess, tessellate ptsA none = .ok out ∧
      out.1.length = 3 * (2 * ptsA.length) ∧
      out.2.1.length = 2 * ptsA.length ∧
      out.2.2.previous.length = 3 * (2 * ptsA.length) ∧
      out.2.2.next.length = 3 * (2 * ptsA.length) ∧
      out.2.2.side.length = 2 * ptsA.length ∧
      out.2.2.width.length = 2 * ptsA.length ∧
      out.2.2.uvs.length = 2 * (2 * ptsA.length) ∧
      out.2.2.indices.length = 6 * max (ptsA.length - 1) 0 ∧
      out.2.2.indices = (List.range (ptsA.length - 1)).flatMap segIdx ∧
      out.2.2.side = (List.range ptsA.length).flatMap (fun _ => ([1, -1] : List ℚ))) :=
  ⟨by decide, claim_C1 ptsA none (by decide)⟩

/-- C6 (code bug): the spec's degenerate case N = 1 — two vertices, no indices,
previous/next equal to the point doubled — is not what the code does: on the
single-point input `(1,2,3)` the `#process` closed-loop branch compares the
point with itself, takes `clonePoint(-1)`, and `setPoints` throws
`point missing` instead of succeeding. -/
theorem claim_C6_bug : setPoints emptyGeo (.vec3 [⟨1, 2, 3⟩]) none =
    .error .pointMissing := rfl

/-- C9 counterexample: for N = 1 the code does not call the width callback with
argument 0 (there is no "denominator treated as 1" guard): tessellation throws
`point missing` before the loop body ever evaluates a width, so the claim's
N = 1 clause is false. -/
theorem claim_C9_cex : tessellate [⟨1, 2, 3⟩] (some (fun _ => 5)) =
    .error .pointMissing := rfl

/-- C2: for every input of N ≥ 2 points, the previous of point 0 is point N−2
when point 0 equals point N−1 exactly (no epsilon) and point 0 itself
otherwise; the next of point N−1 is point 1 when point N−1 equals point 0 and
point N−1 itself otherwise; and for every interior point j, previous is point
j−1 and next is point j+1 — each value doubled for the two rail vertices. -/
theorem claim_C2 (pts : List V3) (wcb : Option (ℚ → ℚ)) (h2 : 2 ≤ pts.length) :
    ∃ out : List ℚ × List ℚ × Tess, tessellate pts wcb = .ok out ∧
      out.2.2.previous.take 6 =
        (if pts.getD 0 default = pts.getD (pts.length - 1) default
         then dup6 (pts.getD (pts.length - 2) default)
         else dup6 (pts.getD 0 default)) ∧
      out.2.2.next.drop (6 * (pts.length - 1)) =
        (if pts.getD (pts.length - 1) default = pts.getD 0 default
         then dup6 (pts.getD 1 default)
         else dup6 (pts.getD (pts.length - 1) default)) ∧
      (∀ j, 0 < j → j < pts.length - 1 →
        (out.2.2.previous.drop (6 * j)).take 6 = dup6 (pts.getD (j - 1) default) ∧
        (out.2.2.next.drop (6 * j)).take 6 = dup6 (pts.getD (j + 1) default)) := by
  refine ⟨(dupPoints pts, countersOf pts.length, tessSpec pts wcb),
    tessellate_eq pts wcb h2, ?_, ?_, ?_⟩
  · rw [tessSpec]
    dsimp only
    rw [List.take_append_of_le_length (by simp [dup6]),
      List.take_of_length_le (by simp [dup6]), prevFirst, apply_ite dup6]
  · rw [tessSpec]
    dsimp only
    rw [show 6 * (pts.length - 1) = ((List.range' 1 (pts.length - 1)).flatMap
        (fun k : ℕ => dup6 (pts.getD k default))).length by
      rw [flatMap_const_length (fun k : ℕ => dup6 (pts.getD k default)) 6 (fun _ => rfl),
        List.length_range']]
    rw [List.drop_left, nextLast, apply_ite dup6]
  · intro j hj0 hjN
    constructor
    · rw [tessSpec]
      dsimp only
      rw [show 6 * j = (dup6 (prevFirst pts)).length + 6 * (j - 1) by
          simp [dup6]; omega,
        List.drop_append,
        flatMap_six_drop (fun k : ℕ => dup6 (pts.getD k default)) (fun _ => rfl) (j - 1),
        List.range_eq_range', drop_range',
        show (0 : ℕ) + (j - 1) = j - 1 by omega,
        show pts.length - 1 - (j - 1) = (pts.length - 1 - (j - 1) - 1) + 1 by omega,
        List.range'_succ, List.flatMap_cons]
      rw [List.take_append_of_le_length (by simp [dup6]),
        List.take_of_length_le (by simp [dup6])]
    · rw [tessSpec]
      dsimp only
      rw [List.drop_append_of_le_length (by
        rw [flatMap_const_length (fun k : ℕ => dup6 (pts.getD k default)) 6 (fun _ => rfl),
          List.length_range']
        omega)]
      rw [flatMap_six_drop (fun k : ℕ => dup6 (pts.getD k default)) (fun _ => rfl) j,
        drop_range',
        show pts.length - 1 - j = (pts.length - 1 - j - 1) + 1 by omega,
        List.range'_succ, List.flatMap_cons,
        show (1 : ℕ) + j = j + 1 by omega]
      simp only [List.append_assoc]
      rw [List.take_append_of_le_length (by simp [dup6]),
        List.take_of_length_le (by simp [dup6])]

/-- C2 witness: the theorem applied to the three-point example. -/
theorem claim_C2_witness : 2 ≤ ptsA.length ∧
    (∃ out : List ℚ × List ℚ × Tess, tessellate ptsA none = .ok out ∧
      out.2.2.previous.take 6 =
        (if ptsA.getD 0 default = ptsA.getD (ptsA.length - 1) default
         then dup6 (ptsA.getD (ptsA.length - 2) default)
         else dup6 (ptsA.getD 0 default)) ∧
      out.2.2.next.drop (6 * (ptsA.length - 1)) =
        (if ptsA.getD (ptsA.length - 1) default = ptsA.getD 0 default
         then dup6 (ptsA.getD 1 default)
         else dup6 (ptsA.getD (ptsA.length - 1) default)) ∧
      (∀ j, 0 < j → j < ptsA.length - 1 →
        (out.2.2.previous.drop (6 * j)).take 6 = dup6 (ptsA.getD (j - 1) default) ∧
        (out.2.2.next.drop (6 * j)).take 6 = dup6 (ptsA.getD (j + 1) default))) :=
  ⟨by decide, claim_C2 ptsA none (by decide)⟩

/-- C7 (corrected): the counter emitted for point j is `j / N` doubled per rail
— not the claimed `j / (N−1)` — so counters span `[0, (N−1)/N]`: the first
point's counter is 0 but the last point's counter is `(N−1)/N ≠ 1`, and it
differs from the uv u-coordinate, which is `j / (N−1)` and reaches 1 at the
last point. -/
theorem claim_C7 (pts : List V3) (wcb : Option (ℚ → ℚ)) (h2 : 2 ≤ pts.length) :
    ∃ out : List ℚ × List ℚ × Tess, tessellate pts wcb = .ok out ∧
      out.2.1 = countersOf pts.length ∧
      out.2.1[0]? = some 0 ∧
      out.2.1[2 * pts.length - 1]? = some (((pts.length : ℚ) - 1) / (pts.length : ℚ)) ∧
      ((pts.length : ℚ) - 1) / (pts.length : ℚ) ≠ 1 ∧
      out.2.2.uvs[4 * (pts.length - 1)]? = some 1 := by
  have hN0 : (pts.length : ℚ) ≠ 0 := Nat.cast_ne_zero.mpr (by omega)
  have hN2 : (2 : ℚ) ≤ (pts.length : ℚ) := by exact_mod_cast h2
  refine ⟨(dupPoints pts, countersOf pts.length, tessSpec pts wcb),
    tessellate_eq pts wcb h2, rfl, ?_, ?_, ?_, ?_⟩
  · rw [countersOf]
    dsimp only
    rw [show (0 : ℕ) = 2 * 0 + 0 by omega,
      flatMap_pair_getElem?
        (fun j : ℕ => [(j : ℚ) / (pts.length : ℚ), (j : ℚ) / (pts.length : ℚ)]) (fun _ => rfl)
        0 0 (by omega),
      List.getElem?_range (by omega)]
    norm_num
  · rw [countersOf]
    dsimp only
    rw [show 2 * pts.length - 1 = 2 * (pts.length - 1) + 1 by omega,
      flatMap_pair_getElem?
        (fun j : ℕ => [(j : ℚ) / (pts.length : ℚ), (j : ℚ) / (pts.length : ℚ)]) (fun _ => rfl)
        (pts.length - 1) 1 (by omega),
      List.getElem?_range (by omega)]
    simp only [Option.bind]
    rw [Nat.cast_sub (by omega)]
    rfl
  · intro h
    rw [div_eq_one_iff_eq hN0] at h
    linarith
  · rw [tessSpec]
    dsimp only
    rw [show 4 * (pts.length - 1) = 4 * (pts.length - 1) + 0 by omega,
      flatMap_quad_getElem?
        (fun k : ℕ => [uOf pts.length k, 0, uOf pts.length k, 1]) (fun _ => rfl)
        (pts.length - 1) 0 (by omega),
      List.getElem?_range (by omega)]
    simp only [Option.bind]
    have hu : uOf pts.length (pts.length - 1) = 1 := by
      rw [uOf, Nat.cast_sub (by omega), Nat.cast_one, div_self (by linarith)]
    rw [show ([uOf pts.length (pts.length - 1), 0, uOf pts.length (pts.length - 1), 1] :
        List ℚ)[0]? = some (uOf pts.length (pts.length - 1)) from rfl, hu]

/-- C7 counterexample: for the two-point line the emitted counters are
`[0, 0, 1/2, 1/2]` while the uv u-coordinates are `[0, 1]`: the last point's
counter is 1/2, not the 1 the claim requires, and differs from its uv u. -/
theorem claim_C7_cex :
    (tessellate ptsB none).map (fun o => (o.2.1, o.2.2.uvs)) =
      .ok ([0, 0, 1/2, 1/2], [0, 0, 0, 1, 1, 0, 1, 1]) ∧ ((1 : ℚ)/2) ≠ 1 := by
  constructor
  · rw [tessellate_eq ptsB none (by decide)]
    simp only [Except.map]
    norm_num [countersOf, tessSpec, uOf, ptsB, List.flatMap_cons, List.flatMap_nil,
      show List.range 2 = [0, 1] from rfl]
  · norm_num

/-- C7 witness: the amended theorem applied to the three-point example. -/
theorem claim_C7_witness : 2 ≤ ptsA.length ∧
    (∃ out : List ℚ × List ℚ × Tess, tessellate ptsA none = .ok out ∧
      out.2.1 = countersOf ptsA.length ∧
      out.2.1[0]? = some 0 ∧
      out.2.1[2 * ptsA.length - 1]? = some (((ptsA.length : ℚ) - 1) / (ptsA.length : ℚ)) ∧
      ((ptsA.length : ℚ) - 1) / (ptsA.length : ℚ) ≠ 1 ∧
      out.2.2.uvs[4 * (ptsA.length - 1)]? = some 1) :=
  ⟨by decide, claim_C7 ptsA none (by decide)⟩

/-- C9 (amended to N ≥ 2; for N = 1 tessellation fails before any width is
computed, see `claim_C9_cex`): with a width callback set, the width stored for
point j (doubled per rail) is the callback applied to `j / (N−1)`, evaluated
once per point in emission order; with no callback every width is 1. -/
theorem claim_C9 (pts : List V3) (f : ℚ → ℚ) (h2 : 2 ≤ pts.length) :
    (∃ out : List ℚ × List ℚ × Tess, tessellate pts (some f) = .ok out ∧
      out.2.2.width = (List.range pts.length).flatMap
        (fun j : ℕ => [f ((j : ℚ) / ((pts.length : ℚ) - 1)),
                       f ((j : ℚ) / ((pts.length : ℚ) - 1))])) ∧
    (∃ out : List ℚ × List ℚ × Tess, tessellate pts none = .ok out ∧
      out.2.2.width = (List.range pts.length).flatMap (fun _ => ([1, 1] : List ℚ))) := by
  constructor
  · exact ⟨_, tessellate_eq pts (some f) h2, rfl⟩
  · exact ⟨_, tessellate_eq pts none h2, rfl⟩

/-- C9 witness: the amended theorem applied to the three-point example with the
identity callback. -/
theorem claim_C9_witness : 2 ≤ ptsA.length ∧
    ((∃ out : List ℚ × List ℚ × Tess, tessellate ptsA (some (fun q => q)) = .ok out ∧
      out.2.2.width = (List.range ptsA.length).flatMap
        (fun j : ℕ => [(fun q : ℚ => q) ((j : ℚ) / ((ptsA.length : ℚ) - 1)),
                       (fun q : ℚ => q) ((j : ℚ) / ((ptsA.length : ℚ) - 1))])) ∧
    (∃ out : List ℚ × List ℚ × Tess, tessellate ptsA none = .ok out ∧
      out.2.2.width = (List.range ptsA.length).flatMap (fun _ => ([1, 1] : List ℚ)))) :=
  ⟨by decide, claim_C9 ptsA (fun q => q) (by decide)⟩

/-- C3: `advance(P)` fails with the not-initialized error when no attributes
exist yet (no successful `setPoints` has run); otherwise it copies the entire
current position array into `previous`, shifts `position` left by one point's
six scalars writing P doubled into the freed last slot, fills `next` by
shifting the post-shift position values left by six scalars with P doubled at
its end, leaves the side, width, uv, counters and index arrays, their dirty
flags, the stored point-sequence reference and the allocation token unchanged,
and raises `needsUpdate` on exactly position, previous and next. -/
theorem claim_C3 :
    (∀ p : V3, advance emptyGeo p = .error .notInitialized) ∧
    (∀ (g : MeshLineGeometry) (a : Attrs) (p : V3),
      g.attributes = some a →
      6 ≤ a.position.length →
      a.previous.length = a.position.length →
      a.next.length = a.position.length →
      advance g p = .ok { g with attributes := some { a with
        position := a.position.drop 6 ++ dup6 p
        previous := a.position
        next := (a.position.drop 6 ++ dup6 p).drop 6 ++ dup6 p
        posDirty := true, prevDirty := true, nextDirty := true } }) := by
  constructor
  · intro p
    rfl
  · intro g a p hg h6 hprev hnext
    have e1 : memcpy a.position 0 a.previous 0 a.position.length = .ok a.position :=
      memcpy_full _ _ hprev
    have e2 : memcpySelf a.position 6 0 (a.position.length - 6) =
        .ok (a.position.drop 6 ++ a.position.drop (a.position.length - 6)) :=
      memcpySelf_shift _ _ rfl h6
    have hlen0 : (a.position.drop 6 ++ a.position.drop (a.position.length - 6)).length
        = a.position.length := by
      simp <;> omega
    have e3 : writeLast6 a.position.length p
          (a.position.drop 6 ++ a.position.drop (a.position.length - 6))
        = a.position.drop 6 ++ dup6 p := by
      rw [writeLast6_eq _ _ _ hlen0 h6, List.take_append_of_le_length (by simp),
        List.take_of_length_le (by simp)]
    have hlenP : (a.position.drop 6 ++ dup6 p).length = a.position.length := by
      simp [dup6] <;> omega
    have eX : ((a.position.drop 6 ++ dup6 p).drop 6).take (a.position.length - 6)
        = (a.position.drop 6 ++ dup6 p).drop 6 :=
      List.take_of_length_le (by simp [dup6] <;> omega)
    have e4 : memcpy (a.position.drop 6 ++ dup6 p) 6 a.next 0 (a.position.length - 6) =
        .ok ((a.position.drop 6 ++ dup6 p).drop 6 ++ a.next.drop (a.position.length - 6)) := by
      rw [memcpy_shift _ _ a.position.length hlenP hnext h6, eX]
    have hlenN : ((a.position.drop 6 ++ dup6 p).drop 6
        ++ a.next.drop (a.position.length - 6)).length = a.position.length := by
      simp [dup6, hnext] <;> omega
    have e5 : writeLast6 a.position.length p
          ((a.position.drop 6 ++ dup6 p).drop 6 ++ a.next.drop (a.position.length - 6))
        = (a.position.drop 6 ++ dup6 p).drop 6 ++ dup6 p := by
      rw [writeLast6_eq _ _ _ hlenN h6,
        List.take_append_of_le_length (by simp [dup6] <;> omega),
        List.take_of_length_le (by simp [dup6] <;> omega)]
    unfold advance
    rw [hg]
    dsimp only
    rw [e1]
    simp only [Except.bind, bind]
    rw [e2]
    simp only [Except.bind, bind]
    rw [e3, e4]
    simp only [Except.bind, bind]
    rw [e5]
    rfl

/-- C3 witness: the theorem applied to the concrete two-point geometry `g1W`
and the new point (7, 8, 9). -/
theorem claim_C3_witness :
    (g1W.attributes = some a1W ∧ 6 ≤ a1W.position.length ∧
      a1W.previous.length = a1W.position.length ∧
      a1W.next.length = a1W.position.length) ∧
    advance g1W ⟨7, 8, 9⟩ = .ok { g1W with attributes := some { a1W with
      position := a1W.position.drop 6 ++ dup6 ⟨7, 8, 9⟩
      previous := a1W.position
      next := (a1W.position.drop 6 ++ dup6 ⟨7, 8, 9⟩).drop 6 ++ dup6 ⟨7, 8, 9⟩
      posDirty := true, prevDirty := true, nextDirty := true } } :=
  ⟨⟨rfl, by decide, by decide, by decide⟩,
    claim_C3.2 g1W a1W ⟨7, 8, 9⟩ rfl (by decide) (by decide) (by decide)⟩

/-- C4: picking returns nothing when the ray misses the world-space bounding
sphere; otherwise the result is the first intersection of the scan: the loop
indices `0, step, 2·step, …` (step 2 in segmented mode, else 1) below
`indices.length − 1` are searched in order for the first index whose segment
is accepted — squared local ray-segment distance at most
`(threshold + lineWidth·width/2)²` with the width read as
`widths[⌊i/3⌋]` defaulting to 1 — and whose world distance lies in
`[near, far]` (`pickHit`); that single index yields the one recorded
intersection (distance, world point, index `i`), and scanning stops there, so
at most one intersection is ever produced and the first hit wins rather than
the globally nearest. -/
theorem claim_C4 (env : RaycastEnv) :
    meshLineRaycast env = (if env.sphereHit then
      (((scanIndices env).find? (pickHit env)).map (mkInter env)).toList
    else []) := by
  rw [meshLineRaycast, scanIndices]
  by_cases h : env.sphereHit
  · rw [if_pos h, if_pos h,
      raycastLoop_eq env (env.indices.length - 1) (env.indices.length - 1) 0 (by omega),
      Nat.sub_zero]
  · rw [if_neg h, if_neg h]

/-- C5: a successful `setPoints` on a buffer whose previous tessellation
produced the same vertex count reuses the existing attribute objects (the
allocation token and counter do not change) and refreshes the contents of
every derived array to the values tessellated from the new points — including
`counters`, which the source's reuse branch never copies but which depends
only on the (unchanged) point count, so its stored contents still equal the
newly tessellated counters. -/
theorem claim_C5 (in1 in2 : PointsInput) (w1 w2 : Option (ℚ → ℚ))
    (g1 g2 : MeshLineGeometry)
    (hne1 : inputLength in1 ≠ 0) (hne2 : inputLength in2 ≠ 0)
    (h1 : setPoints emptyGeo in1 w1 = .ok g1)
    (h2 : setPoints g1 in2 w2 = .ok g2)
    (hcount : inputPointCount in1 = inputPointCount in2) :
    ∃ (a1 a2 : Attrs) (pos2 cnt2 : List ℚ) (t2 : Tess),
      g1.attributes = some a1 ∧ g2.attributes = some a2 ∧
      a2.gen = a1.gen ∧ g2.nextGen = g1.nextGen ∧
      buildPositions in2 = .ok (pos2, cnt2) ∧
      process pos2 (effWcb w2 g1.widthCallback) = .ok t2 ∧
      a2.position = pos2 ∧ a2.previous = t2.previous ∧ a2.next = t2.next ∧
      a2.side = t2.side ∧ a2.width = t2.width ∧ a2.uv = t2.uvs ∧
      a2.index = t2.indices.map (fun i => i % 65536) ∧ a2.counters = cnt2 := by
  obtain ⟨pos1, cnt1, t1, hb1, hp1, hg1⟩ := setPoints_ok_inv _ _ _ _ h1 hne1
  obtain ⟨pos2, cnt2, t2, hb2, hp2, hg2⟩ := setPoints_ok_inv _ _ _ _ h2 hne2
  obtain ⟨hpos1, hcnt1⟩ := buildPositions_ok _ _ _ hb1
  obtain ⟨hpos2, hcnt2⟩ := buildPositions_ok _ _ _ hb2
  have hg1a : g1.attributes = some (freshAttrs 0 pos1 cnt1 t1) := by
    rw [hg1]; rfl
  have hlen1 : pos1.length = 6 * inputPointCount in1 := by
    rw [hpos1, dupPoints_length, ptsOf_length]
  have hlen2 : pos2.length = 6 * inputPointCount in2 := by
    rw [hpos2, dupPoints_length, ptsOf_length]
  have hcond : (((freshAttrs 0 pos1 cnt1 t1).position.length) / 3) * 3 = pos2.length := by
    show (pos1.length / 3) * 3 = pos2.length
    rw [hlen1, hlen2, hcount]
    omega
  rw [applyAttrs] at hg2
  dsimp only at hg2
  rw [hg1a] at hg2
  dsimp only at hg2
  rw [if_pos hcond] at hg2
  refine ⟨freshAttrs 0 pos1 cnt1 t1,
    { freshAttrs 0 pos1 cnt1 t1 with
        position := pos2, posDirty := true
        previous := t2.previous, prevDirty := true
        next := t2.next, nextDirty := true
        side := t2.side, sideDirty := true
        width := t2.width, widthDirty := true
        uv := t2.uvs, uvDirty := true
        index := t2.indices.map (fun i => i % 65536), indexDirty := true },
    pos2, cnt2, t2, hg1a, ?_, rfl, ?_, hb2, hp2, rfl, rfl, rfl, rfl, rfl, rfl, rfl, ?_⟩
  · rw [hg2]
  · rw [hg2, hg1]
  · show cnt1 = cnt2
    rw [hcnt1, hcount, hcnt2]

/-- C5 witness: two consecutive two-point `setPoints` runs on concrete data. -/
theorem claim_C5_witness :
    (inputLength (.vec3 ptsB) ≠ 0 ∧ inputLength (.vec3 ptsC) ≠ 0 ∧
      setPoints emptyGeo (.vec3 ptsB) none = .ok g1W ∧
      setPoints g1W (.vec3 ptsC) none = .ok g2W ∧
      inputPointCount (.vec3 ptsB) = inputPointCount (.vec3 ptsC)) ∧
    (∃ (a1 a2 : Attrs) (pos2 cnt2 : List ℚ) (t2 : Tess),
      g1W.attributes = some a1 ∧ g2W.attributes = some a2 ∧
      a2.gen = a1.gen ∧ g2W.nextGen = g1W.nextGen ∧
      buildPositions (.vec3 ptsC) = .ok (pos2, cnt2) ∧
      process pos2 (effWcb none g1W.widthCallback) = .ok t2 ∧
      a2.position = pos2 ∧ a2.previous = t2.previous ∧ a2.next = t2.next ∧
      a2.side = t2.side ∧ a2.width = t2.width ∧ a2.uv = t2.uvs ∧
      a2.index = t2.indices.map (fun i => i % 65536) ∧ a2.counters = cnt2) :=
  ⟨⟨by decide, by decide, setPoints_B, setPoints_C, rfl⟩,
    claim_C5 (.vec3 ptsB) (.vec3 ptsC) none none g1W g2W
      (by decide) (by decide) setPoints_B setPoints_C rfl⟩

/-- C8 (corrected): `setPoints` never surfaces an overflow error — there is no
such check — and every emitted index value is stored in the `Uint16Array`
index buffer reduced modulo 2^16, so indices above 65535 are silently wrapped
rather than rejected (see `claim_C8_cex` for a concrete wrapped value). -/
theorem claim_C8 (pts : List V3) (wcb : Option (ℚ → ℚ)) (h2 : 2 ≤ pts.length) :
    ∃ (g : MeshLineGeometry) (a : Attrs),
      setPoints emptyGeo (.vec3 pts) wcb = .ok g ∧ g.attributes = some a ∧
      a.index = ((List.range (pts.length - 1)).flatMap segIdx).map (fun i => i % 65536) := by
  have h := setPoints_ok_iff emptyGeo (.vec3 pts) wcb
    (by simp only [inputLength]; omega)
    (dupPoints pts) (countersOf pts.length)
    (tessSpec pts (effWcb wcb emptyGeo.widthCallback))
    (buildPositions_vec3 pts)
    (process_dup pts (effWcb wcb emptyGeo.widthCallback) h2)
  exact ⟨_, _, h, rfl, rfl⟩

/-- C8 counterexample: with 32769 points, the last segment emits raw index
65537 (= 2·32767 + 3) at position 196607 of the index list, `setPoints`
succeeds — no overflow error — and the stored `Uint16Array` slot holds
65537 mod 2^16 = 1, a silently wrapped value. -/
theorem claim_C8_cex :
    ((setPoints emptyGeo (.vec3 bigPts) none).map
      (fun g => g.attributes.map (fun a => a.index[196607]?))) = .ok (some (some 1)) ∧
    ((tessellate bigPts none).map (fun o => o.2.2.indices[196607]?)) = .ok (some 65537) ∧
    (65537 : ℕ) % 65536 = 1 ∧ (65537 : ℕ) ≠ 1 := by
  have hlen : bigPts.length = 32769 := by
    rw [bigPts, List.length_map, List.length_range]
  have h2 : 2 ≤ bigPts.length := by rw [hlen]; omega
  have hidx : ((List.range (bigPts.length - 1)).flatMap segIdx)[196607]? = some 65537 := by
    rw [show (196607 : ℕ) = 6 * 32767 + 5 by norm_num,
      flatMap_six_idx_getElem? 32767 5 (by omega) _ segIdx (fun _ => rfl),
      hlen, List.getElem?_range (by omega)]
    simp only [Option.bind]
    rw [show (segIdx 32767)[5]? = some (32767 * 2 + 3) from rfl]
  refine ⟨?_, ?_, by norm_num, by norm_num⟩
  · have hne9 : inputLength (.vec3 bigPts) ≠ 0 := by
      simp only [inputLength]
      rw [hlen]
      norm_num
    have h := setPoints_ok_iff emptyGeo (.vec3 bigPts) none hne9
      (dupPoints bigPts) (countersOf bigPts.length)
      (tessSpec bigPts (effWcb none emptyGeo.widthCallback))
      (buildPositions_vec3 bigPts)
      (process_dup bigPts (effWcb none emptyGeo.widthCallback) h2)
    rw [h]
    simp only [Except.map]
    rw [applyAttrs]
    dsimp only [emptyGeo, freshAttrs, Option.map]
    rw [List.getElem?_map]
    dsimp only [tessSpec]
    rw [hidx]
    rfl
  · rw [tessellate_eq bigPts none h2]
    simp only [Except.map]
    dsimp only [tessSpec]
    rw [hidx]

/-- C8 witness: the amended theorem applied to the three-point example (whose
indices all fit, so the modulo store is the identity there). -/
theorem claim_C8_witness : 2 ≤ ptsA.length ∧
    (∃ (g : MeshLineGeometry) (a : Attrs),
      setPoints emptyGeo (.vec3 ptsA) none = .ok g ∧ g.attributes = some a ∧
      a.index = ((List.range (ptsA.length - 1)).flatMap segIdx).map (fun i => i % 65536)) :=
  ⟨by decide, claim_C8 ptsA none (by decide)⟩

/-- C10: feeding `setPoints` an array of N point structs or the equivalent
flat array of 3N scalars produces identical derived output: the resulting
attribute sets (position, counters, previous, next, side, width, uv, index and
their flags) are equal — in particular both branches emit counter `k / N` for
the k-th point; only the stored raw input reference differs. -/
theorem claim_C10 (pts : List V3) (wcb : Option (ℚ → ℚ)) :
    (setPoints emptyGeo (.vec3 pts) wcb).map (fun g => g.attributes) =
    (setPoints emptyGeo (.flat (flatOf pts)) wcb).map (fun g => g.attributes) := by
  by_cases hnil : pts = []
  · subst hnil
    rfl
  · have hne : pts.length ≠ 0 := by
      intro h
      exact hnil (List.eq_nil_of_length_eq_zero h)
    have hcnt : (List.range' 0 pts.length 3).flatMap
        (fun m => [(m : ℚ) / (((flatOf pts).length : ℕ) : ℚ),
                   (m : ℚ) / (((flatOf pts).length : ℕ) : ℚ)]) = countersOf pts.length := by
      rw [flatOf_length]
      exact counters_flat_eq pts.length
    have hbF : buildPositions (.flat (flatOf pts)) = .ok (dupPoints pts, countersOf pts.length) := by
      rw [show buildPositions (.flat (flatOf pts)) = buildFlat (flatOf pts) 0 from rfl,
        buildFlat_flatOf, hcnt]
    rw [setPoints, setPoints,
      if_neg (by simp only [inputLength]; omega),
      if_neg (by simp only [inputLength]; rw [flatOf_length]; omega),
      buildPositions_vec3, hbF]
    simp only [Except.bind, bind]
    rcases hp : process (dupPoints pts) (effWcb wcb emptyGeo.widthCallback) with e | t
    · rfl
    · rfl

end MeshLineSpec

